import Mathlib

/-!
# Verification of the petrol-bunk slip-parsing and metrics pipeline

Shallow embedding of the parsing/aggregation/comparison logic of the
repository (Next.js + TypeScript).  Strings are modelled as `List Char`,
JavaScript numbers as `ℚ` (exact rationals; no floating point or `NaN`
arises on the code paths the claims exercise), and JavaScript's
`parseInt`/`parseFloat` as explicit partial decimal parsers returning
`Option` (`none` models `NaN`).

Sources embedded:
* `src/app/api/receipts/process/route.ts` — text normalizer, block-strategy
  nozzle extraction, line-grouping fallback, stored `ocrData` shape.
* `src/app/api/dashboard/route.ts` — dashboard aggregation fold (totals,
  density, fuel-type distribution, transaction count) and, after the
  embedded-document separator, the older receipt-processing route with the
  static-default fallback.
* `src/unnamed/part_000` — the daily-comparison API route (`processReceipt`,
  aggregate differences).
* `src/app/dashboard/daily-comparison/page.tsx` — per-nozzle comparison rows
  and `getFuelType`.
-/

namespace Pbms

abbrev Str := List Char

/-- Characters matched by JavaScript `\s` (ASCII part) and trimmed by
`String.prototype.trim`; the inputs of interest contain only these. -/
def isWs (c : Char) : Bool :=
  c = ' ' || c = '\t' || c = '\n' || c = '\r' || c = '\x0b' || c = '\x0c'

def isDigitCh (c : Char) : Bool := '0' ≤ c && c ≤ '9'

/-- Characters of the capture class `[0-9.,]`. -/
def isNumCh (c : Char) : Bool := isDigitCh c || c = '.' || c = ','

/-- ASCII lower-casing on code points (for case-insensitive `/i` regexes). -/
def lowerN (n : Nat) : Nat := if 65 ≤ n ∧ n ≤ 90 then n + 32 else n

/-- Case-insensitive character comparison, as used by the `/i` regex flag. -/
def chEqCI (a b : Char) : Bool := lowerN a.toNat = lowerN b.toNat

def strOf (s : String) : Str := s.data

/-! ## Text Normalizer (receipts/process/route.ts lines 210-215)

```js
const normalized = text
  .replace(/\r/g, "\n")
  .replace(/\n+/g, "\n")
  .replace(/\s+:/g, ":")
  .trim();
```
-/

/-- `.replace(/\r/g, "\n")`. -/
def mapCr (s : Str) : Str := s.map (fun c => if c = '\r' then '\n' else c)

/-- `.replace(/\n+/g, "\n")`: every maximal run of newlines becomes a single
newline (the run is contracted in place to one `'\n'`). -/
def collapseNl : Str → Str
  | [] => []
  | [c] => [c]
  | a :: b :: l =>
    if a = '\n' ∧ b = '\n' then collapseNl (b :: l)
    else a :: collapseNl (b :: l)

/-- `.replace(/\s+:/g, ":")`: delete every whitespace character that is
followed (through deleted whitespace) by a colon; equivalently, each maximal
whitespace run immediately preceding a `':'` is removed, the colon kept. -/
def replWsColon : Str → Str
  | [] => []
  | c :: l =>
    if isWs c ∧ (replWsColon l).head? = some ':' then replWsColon l
    else c :: replWsColon l

/-- `String.prototype.trim`: drop whitespace from both ends. -/
def jsTrim (s : Str) : Str := List.rdropWhile isWs (s.dropWhile isWs)

/-- The text normalizer of receipts/process/route.ts (lines 210-215). -/
def normalize (s : Str) : Str := jsTrim (replWsColon (collapseNl (mapCr s)))

/-! ### Adjacent-pair predicates used for the idempotence proof -/

/-- `pairOK p l` holds when every pair of adjacent characters satisfies `p`. -/
def pairOK (p : Char → Char → Bool) : Str → Bool
  | [] => true
  | [_] => true
  | a :: b :: l => p a b && pairOK p (b :: l)

def notNlNl (a b : Char) : Bool := !(a = '\n' && b = '\n')

def notWsColon (a b : Char) : Bool := !(isWs a && b = ':')

theorem pairOK_tail {p : Char → Char → Bool} {a : Char} {l : Str}
    (h : pairOK p (a :: l) = true) : pairOK p l = true := by
  cases l with
  | nil => rfl
  | cons b t => exact ((Bool.and_eq_true _ _).mp h).2

theorem pairOK_cons_pair {p : Char → Char → Bool} {a b : Char} {l : Str}
    (h : pairOK p (a :: b :: l) = true) : p a b = true :=
  ((Bool.and_eq_true _ _).mp h).1

theorem pairOK_cons {p : Char → Char → Bool} {a b : Char} {l : Str}
    (h1 : p a b = true) (h2 : pairOK p (b :: l) = true) :
    pairOK p (a :: b :: l) = true := by
  simp only [pairOK, Bool.and_eq_true]
  exact ⟨h1, h2⟩

theorem pairOK_append_left {p : Char → Char → Bool} :
    ∀ (l r : Str), pairOK p (l ++ r) = true → pairOK p l = true
  | [], _, _ => rfl
  | [_], _, _ => rfl
  | a :: b :: l, r, h => by
    have hab : p a b = true := pairOK_cons_pair (l := l ++ r) h
    have ht : pairOK p ((b :: l) ++ r) = true := pairOK_tail (a := a) h
    exact pairOK_cons hab (pairOK_append_left (b :: l) r ht)

theorem pairOK_append_right {p : Char → Char → Bool} :
    ∀ (l r : Str), pairOK p (l ++ r) = true → pairOK p r = true
  | [], _, h => h
  | a :: l, r, h => pairOK_append_right l r (pairOK_tail (a := a) h)

/-! ### Step lemmas for the normalizer passes -/

theorem mapCr_no_cr (s : Str) : (mapCr s).all (· != '\r') = true := by
  induction s with
  | nil => rfl
  | cons c l ih =>
    simp only [mapCr, List.map_cons, List.all_cons, Bool.and_eq_true]
    refine ⟨?_, ih⟩
    by_cases h : c = '\r' <;> simp [h]

theorem mapCr_id {s : Str} (h : s.all (· != '\r') = true) : mapCr s = s := by
  induction s with
  | nil => rfl
  | cons c l ih =>
    simp only [List.all_cons, Bool.and_eq_true] at h
    have hc : c ≠ '\r' := by simpa using h.1
    simp only [mapCr, List.map_cons, if_neg hc]
    exact congrArg (c :: ·) (ih h.2)

theorem collapseNl_cons : ∀ (a : Char) (l : Str), ∃ t, collapseNl (a :: l) = a :: t
  | _, [] => ⟨[], rfl⟩
  | a, b :: l => by
    by_cases h : a = '\n' ∧ b = '\n'
    · obtain ⟨t, ht⟩ := collapseNl_cons b l
      refine ⟨t, ?_⟩
      have hstep : collapseNl (a :: b :: l) = collapseNl (b :: l) := by
        simp only [collapseNl, if_pos h]
      rw [hstep, ht, h.1, h.2]
    · exact ⟨collapseNl (b :: l), by simp only [collapseNl, if_neg h]⟩

theorem collapseNl_pairOK : ∀ s : Str, pairOK notNlNl (collapseNl s) = true
  | [] => rfl
  | [_] => rfl
  | a :: b :: l => by
    have ih := collapseNl_pairOK (b :: l)
    by_cases h : a = '\n' ∧ b = '\n'
    · simpa only [collapseNl, if_pos h] using ih
    · obtain ⟨t, ht⟩ := collapseNl_cons b l
      simp only [collapseNl, if_neg h, ht]
      refine pairOK_cons ?_ (ht ▸ ih)
      simp only [notNlNl, Bool.not_eq_true']
      rcases not_and_or.mp h with hx | hx <;> simp [hx]

theorem collapseNl_id : ∀ {s : Str}, pairOK notNlNl s = true → collapseNl s = s
  | [], _ => rfl
  | [_], _ => rfl
  | a :: b :: l, h => by
    have hab := pairOK_cons_pair h
    have hcond : ¬(a = '\n' ∧ b = '\n') := by
      simp only [notNlNl, Bool.not_eq_true'] at hab
      intro hx
      simp [hx.1, hx.2] at hab
    simp only [collapseNl, if_neg hcond]
    exact congrArg (a :: ·) (collapseNl_id (pairOK_tail h))

theorem collapseNl_all {q : Char → Bool} :
    ∀ {s : Str}, s.all q = true → (collapseNl s).all q = true
  | [], h => h
  | [_], h => h
  | a :: b :: l, h => by
    simp only [List.all_cons, Bool.and_eq_true] at h
    have ih := collapseNl_all (q := q) (s := b :: l)
      (by simp only [List.all_cons, Bool.and_eq_true]; exact ⟨h.2.1, h.2.2⟩)
    by_cases hc : a = '\n' ∧ b = '\n'
    · simpa only [collapseNl, if_pos hc] using ih
    · simp only [collapseNl, if_neg hc, List.all_cons, Bool.and_eq_true]
      exact ⟨h.1, ih⟩

theorem replWsColon_head (s : Str) :
    (replWsColon s).head? = s.head? ∨ (replWsColon s).head? = some ':' := by
  cases s with
  | nil => exact Or.inl rfl
  | cons c l =>
    by_cases h : isWs c ∧ (replWsColon l).head? = some ':'
    · right
      simp only [replWsColon, if_pos h]
      exact h.2
    · left
      simp only [replWsColon, if_neg h, List.head?_cons]

theorem replWsColon_pairOK : ∀ s : Str, pairOK notWsColon (replWsColon s) = true
  | [] => rfl
  | c :: l => by
    have ih := replWsColon_pairOK l
    by_cases h : isWs c ∧ (replWsColon l).head? = some ':'
    · simpa only [replWsColon, if_pos h] using ih
    · simp only [replWsColon, if_neg h]
      cases hr : replWsColon l with
      | nil => rfl
      | cons d t =>
        refine pairOK_cons ?_ (hr ▸ ih)
        simp only [notWsColon, Bool.not_eq_true']
        by_cases hws : isWs c
        · have hd : ¬ d = ':' := fun hd => h ⟨hws, by rw [hr, List.head?_cons, hd]⟩
          simp [hws, hd]
        · simp [hws]

theorem replWsColon_id : ∀ {s : Str}, pairOK notWsColon s = true → replWsColon s = s
  | [], _ => rfl
  | [c], _ => by simp [replWsColon]
  | a :: b :: l, h => by
    have ih : replWsColon (b :: l) = b :: l := replWsColon_id (pairOK_tail h)
    have hab := pairOK_cons_pair h
    simp only [notWsColon, Bool.not_eq_true'] at hab
    have hcond : ¬(isWs a ∧ (replWsColon (b :: l)).head? = some ':') := by
      rw [ih]
      intro hx
      simp only [List.head?_cons, Option.some.injEq] at hx
      simp [hx.1, hx.2] at hab
    have hstep : replWsColon (a :: b :: l)
        = if isWs a ∧ (replWsColon (b :: l)).head? = some ':' then replWsColon (b :: l)
          else a :: replWsColon (b :: l) := rfl
    rw [hstep, if_neg hcond, ih]

theorem replWsColon_pres_notNlNl :
    ∀ s : Str, pairOK notNlNl s = true → pairOK notNlNl (replWsColon s) = true
  | [], _ => rfl
  | c :: l, h => by
    have ih := replWsColon_pres_notNlNl l (pairOK_tail h)
    by_cases hc : isWs c ∧ (replWsColon l).head? = some ':'
    · simpa only [replWsColon, if_pos hc] using ih
    · simp only [replWsColon, if_neg hc]
      cases hr : replWsColon l with
      | nil => rfl
      | cons d t =>
        refine pairOK_cons ?_ (hr ▸ ih)
        rcases replWsColon_head l with hh | hh
        · rw [hr] at hh
          cases l with
          | nil => simp at hh
          | cons e t' =>
            simp only [List.head?_cons, Option.some.injEq] at hh
            rw [hh]
            exact pairOK_cons_pair h
        · rw [hr] at hh
          simp only [List.head?_cons, Option.some.injEq] at hh
          subst hh
          have hcn : (decide ((':' : Char) = '\n')) = false := by decide
          simp [notNlNl, hcn]

theorem replWsColon_all {q : Char → Bool} :
    ∀ {s : Str}, s.all q = true → (replWsColon s).all q = true
  | [], h => h
  | c :: l, h => by
    simp only [List.all_cons, Bool.and_eq_true] at h
    have ih := replWsColon_all (q := q) h.2
    by_cases hc : isWs c ∧ (replWsColon l).head? = some ':'
    · simpa only [replWsColon, if_pos hc] using ih
    · simp only [replWsColon, if_neg hc, List.all_cons, Bool.and_eq_true]
      exact ⟨h.1, ih⟩

theorem jsTrim_decomp (s : Str) : ∃ a b, s = a ++ jsTrim s ++ b := by
  obtain ⟨a, ha⟩ : s.dropWhile isWs <:+ s := List.dropWhile_suffix isWs
  obtain ⟨b, hb⟩ : jsTrim s <+: s.dropWhile isWs := List.rdropWhile_prefix isWs _
  refine ⟨a, b, ?_⟩
  calc s = a ++ s.dropWhile isWs := ha.symm
    _ = a ++ (jsTrim s ++ b) := by rw [hb]
    _ = a ++ jsTrim s ++ b := (List.append_assoc _ _ _).symm

theorem jsTrim_pairOK {p : Char → Char → Bool} {s : Str}
    (h : pairOK p s = true) : pairOK p (jsTrim s) = true := by
  obtain ⟨a, b, hab⟩ := jsTrim_decomp s
  rw [hab, List.append_assoc] at h
  exact pairOK_append_left _ _ (pairOK_append_right _ _ h)

theorem jsTrim_all {q : Char → Bool} {s : Str}
    (h : s.all q = true) : (jsTrim s).all q = true := by
  obtain ⟨a, b, hab⟩ := jsTrim_decomp s
  rw [hab] at h
  simp only [List.all_append, Bool.and_eq_true] at h
  exact h.1.2

theorem jsTrim_idem (s : Str) : jsTrim (jsTrim s) = jsTrim s := by
  have hdw : (List.rdropWhile isWs (s.dropWhile isWs)).dropWhile isWs
      = List.rdropWhile isWs (s.dropWhile isWs) := by
    rw [List.dropWhile_eq_self_iff]
    intro hl
    have hpre : List.rdropWhile isWs (s.dropWhile isWs) <+: s.dropWhile isWs :=
      List.rdropWhile_prefix isWs _
    have hlen : 0 < (s.dropWhile isWs).length := lt_of_lt_of_le hl hpre.length_le
    have h0 : (List.rdropWhile isWs (s.dropWhile isWs)).get ⟨0, hl⟩
        = (s.dropWhile isWs).get ⟨0, hlen⟩ := by
      simpa using hpre.getElem (n := 0) hl
    rw [h0]
    exact List.dropWhile_get_zero_not isWs s hlen
  unfold jsTrim
  rw [hdw, List.rdropWhile_idempotent]

/-- Claim C9: The Text Normalizer is idempotent: normalizing already-normalized
text is a no-op, i.e. `normalize (normalize s) = normalize s` for every input
string, where `normalize` maps `\r` to `\n`, collapses newline runs, removes
whitespace before colons and trims both ends. -/
theorem normalize_idempotent (s : Str) : normalize (normalize s) = normalize s := by
  set t := normalize s with ht
  have hnoCr : t.all (· != '\r') = true := by
    rw [ht]
    exact jsTrim_all (replWsColon_all (collapseNl_all (mapCr_no_cr s)))
  have hnl : pairOK notNlNl t = true := by
    rw [ht]
    exact jsTrim_pairOK (replWsColon_pres_notNlNl _ (collapseNl_pairOK _))
  have hwc : pairOK notWsColon t = true := by
    rw [ht]
    exact jsTrim_pairOK (replWsColon_pairOK _)
  show jsTrim (replWsColon (collapseNl (mapCr t))) = t
  rw [mapCr_id hnoCr, collapseNl_id hnl, replWsColon_id hwc, ht]
  exact jsTrim_idem _

/-! ## Slip Parser: regex-level primitives

The nozzle-extraction regexes of receipts/process/route.ts are embedded at
the character level.  Each regex is deterministic on its character classes
(whitespace, separator, digits are disjoint), so no backtracking search is
needed: greedy left-to-right consumption is faithful.
-/

/-- Match a literal keyword case-insensitively at the head; returns the rest. -/
def matchLit : Str → Str → Option Str
  | [], s => some s
  | _ :: _, [] => none
  | k :: ks, c :: cs => if chEqCI k c then matchLit ks cs else none

def nozzleKw : Str := strOf "NOZZLE"

/-- The nozzle-start pattern `NOZZLE\s*[:\-]?\s*(\d+)` (flag `i`) at the head
of `s`: returns `(consumed text, captured digits, rest)`, or `none`. -/
def matchNozzleStart (s : Str) : Option (Str × Str × Str) :=
  match matchLit nozzleKw s with
  | none => none
  | some r1 =>
    let w1 := r1.takeWhile isWs
    let r2 := r1.dropWhile isWs
    let sep : Str := match r2 with
      | c :: _ => if c = ':' ∨ c = '-' then [c] else []
      | [] => []
    let r3 : Str := match r2 with
      | c :: t => if c = ':' ∨ c = '-' then t else r2
      | [] => []
    let w2 := r3.takeWhile isWs
    let r4 := r3.dropWhile isWs
    let ds := r4.takeWhile isDigitCh
    if ds = [] then none
    else some (s.take nozzleKw.length ++ w1 ++ sep ++ w2 ++ ds, ds, r4.dropWhile isDigitCh)

/-- The block-terminating lookahead `(?=NOZZLE\s*:|$)` (first alternative):
`NOZZLE`, optional whitespace, then a literal colon, at the head of `s`.
Note the colon is required — a bare `NOZZLE <digits>` does not satisfy it. -/
def isNozzleColon (s : Str) : Bool :=
  match matchLit nozzleKw s with
  | none => false
  | some r =>
    match r.dropWhile isWs with
    | ':' :: _ => true
    | _ => false

/-- Lazy `[\s\S]*?` extension up to the first suffix satisfying the
lookahead (or the end of input, where the `$` alternative matches):
returns `(consumed, remaining suffix)`. -/
def lazyUntil : Str → Str × Str
  | [] => ([], [])
  | c :: t =>
    if isNozzleColon (c :: t) then ([], c :: t)
    else (c :: (lazyUntil t).1, (lazyUntil t).2)

/-- The common field tail `\s*[:\-]?\s*([0-9.,]+)` after a field label:
returns the captured number text. -/
def matchFieldTail (r1 : Str) : Option Str :=
  let r3 : Str := match r1.dropWhile isWs with
    | c :: t => if c = ':' ∨ c = '-' then t else c :: t
    | [] => []
  let num := (r3.dropWhile isWs).takeWhile isNumCh
  if num = [] then none else some num

/-- `/A\s*[:\-]?\s*([0-9.,]+)/i` at the head of `s`. -/
def matchA (s : Str) : Option Str := (matchLit (strOf "A") s).bind matchFieldTail

/-- `/V\s*[:\-]?\s*([0-9.,]+)/i` at the head of `s`. -/
def matchV (s : Str) : Option Str := (matchLit (strOf "V") s).bind matchFieldTail

/-- `/TOT\s*SALES\s*[:\-]?\s*([0-9.,]+)/i` at the head of `s`. -/
def matchTot (s : Str) : Option Str :=
  match matchLit (strOf "TOT") s with
  | none => none
  | some r =>
    match matchLit (strOf "SALES") (r.dropWhile isWs) with
    | none => none
    | some r2 => matchFieldTail r2

/-- Leftmost match of `m` over the suffixes of `s` (regex scan). -/
def scanFirst (m : Str → Option Str) : Str → Option Str
  | [] => m []
  | c :: t =>
    match m (c :: t) with
    | some r => some r
    | none => scanFirst m t

/-- `findIn(segment, re, "")` of the block strategy: first capture, trimmed,
or the empty-string default. -/
def findIn (m : Str → Option Str) (s : Str) : Str :=
  match scanFirst m s with
  | some cap => jsTrim cap
  | none => []

/-- The raw per-nozzle field set `{nozzle, a, v, totSales}` (strings). -/
structure NozzleFields where
  nozzle : Str
  a : Str
  v : Str
  totSales : Str
deriving DecidableEq

/-- Build one field set from a matched segment (route.ts lines 237-242): the
`A`, `V` and `TOT SALES` fields are searched independently inside `seg`. -/
def mkRawFromSegment (ds seg : Str) : NozzleFields :=
  { nozzle := ds, a := findIn matchA seg, v := findIn matchV seg,
    totSales := findIn matchTot seg }

theorem len_dropWhile_le (p : Char → Bool) (l : Str) :
    (l.dropWhile p).length ≤ l.length :=
  (List.dropWhile_sublist p).length_le

theorem matchLit_length : ∀ (k s r : Str), matchLit k s = some r →
    k.length + r.length = s.length
  | [], _, _, h => by simp only [matchLit, Option.some.injEq] at h; simp [← h]
  | _ :: _, [], _, h => by simp [matchLit] at h
  | k :: ks, c :: cs, r, h => by
    by_cases hc : chEqCI k c = true
    · simp only [matchLit, if_pos hc] at h
      have := matchLit_length ks cs r h
      simp only [List.length_cons]
      omega
    · simp [matchLit, hc] at h

theorem matchNozzleStart_rest_lt {s pre ds rest : Str}
    (h : matchNozzleStart s = some (pre, ds, rest)) : rest.length < s.length := by
  unfold matchNozzleStart at h
  cases hl : matchLit nozzleKw s with
  | none => rw [hl] at h; exact absurd h (by simp)
  | some r1 =>
    rw [hl] at h
    have hr1 : r1.length < s.length := by
      have := matchLit_length nozzleKw s r1 hl
      have h6 : nozzleKw.length = 6 := rfl
      omega
    simp only at h
    by_cases hds : ((match r1.dropWhile isWs with
        | c :: t => if c = ':' ∨ c = '-' then t else r1.dropWhile isWs
        | [] => ([] : Str)).dropWhile isWs).takeWhile isDigitCh = []
    · rw [if_pos hds] at h; exact absurd h (by simp)
    · rw [if_neg hds] at h
      have hrest : rest = ((match r1.dropWhile isWs with
          | c :: t => if c = ':' ∨ c = '-' then t else r1.dropWhile isWs
          | [] => ([] : Str)).dropWhile isWs).dropWhile isDigitCh := by
        have := congrArg (fun x => x.2.2) (Option.some.injEq _ _ |>.mp h).symm
        simpa using this
      have hr3 : (match r1.dropWhile isWs with
          | c :: t => if c = ':' ∨ c = '-' then t else r1.dropWhile isWs
          | [] => ([] : Str)).length ≤ r1.length := by
        cases hr2 : r1.dropWhile isWs with
        | nil => simp
        | cons c t =>
          have h2 : (r1.dropWhile isWs).length ≤ r1.length := len_dropWhile_le _ _
          rw [hr2] at h2
          by_cases hcs : c = ':' ∨ c = '-'
          · simp only [if_pos hcs]
            simp only [List.length_cons] at h2
            omega
          · simp only [if_neg hcs]
            exact h2
      calc rest.length
          ≤ _ := by rw [hrest]; exact le_trans (len_dropWhile_le _ _) (len_dropWhile_le _ _)
        _ ≤ r1.length := hr3
        _ < s.length := hr1

theorem lazyUntil_snd_len : ∀ s : Str, (lazyUntil s).2.length ≤ s.length
  | [] => le_refl _
  | c :: t => by
    by_cases h : isNozzleColon (c :: t) = true
    · simp [lazyUntil, h]
    · simp only [lazyUntil, if_neg h]
      exact le_trans (lazyUntil_snd_len t) (by simp)

/-- The block strategy of receipts/process/route.ts (lines 233-243): the
`exec` loop of `/NOZZLE\s*[:\-]?\s*(\d+)[\s\S]*?(?=NOZZLE\s*:|$)/gi`,
scanning from each position for the next match and resuming after it.
`fuel` bounds the recursion; `blockStrategy` supplies `s.length`, which the
fuel-invariance lemma shows is always sufficient. -/
def blockLoop : Nat → Str → List NozzleFields
  | 0, _ => []
  | _ + 1, [] => []
  | fuel + 1, c :: t =>
    match matchNozzleStart (c :: t) with
    | none => blockLoop fuel t
    | some (pre, ds, rest) =>
      mkRawFromSegment ds (pre ++ (lazyUntil rest).1) ::
        blockLoop fuel (lazyUntil rest).2

/-- Strategy 1, the block strategy (route.ts lines 233-243). -/
def blockStrategy (s : Str) : List NozzleFields := blockLoop s.length s

/-- Split `s` at the first (leftmost) suffix satisfying `p`:
`some (before, suffix)`, or `none` when no suffix satisfies `p`. -/
def splitAtFirst (p : Str → Bool) : Str → Option (Str × Str)
  | [] => none
  | c :: t =>
    if p (c :: t) then some ([], c :: t)
    else
      match splitAtFirst p t with
      | some (a, b) => some (c :: a, b)
      | none => none

def hasNozzleStart (s : Str) : Bool := (matchNozzleStart s).isSome

/-- Block splitting as described by the specification text: find an
occurrence of the nozzle-start pattern, take the block from the occurrence
up to the next suffix satisfying the boundary predicate `bnd` (or the end
of text), search the fields inside the block, and continue at the
boundary.  With `bnd := hasNozzleStart` this is claim C1's reading (blocks
end at the next `NOZZLE <digits>` occurrence); with `bnd := isNozzleColon`
it is the amended reading (blocks end only at `NOZZLE`-whitespace-colon). -/
def specBlocksLoop (bnd : Str → Bool) : Nat → Str → List NozzleFields
  | 0, _ => []
  | fuel + 1, s =>
    match splitAtFirst hasNozzleStart s with
    | none => []
    | some (_, suf) =>
      match matchNozzleStart suf with
      | none => []
      | some (pre, ds, rest) =>
        match splitAtFirst bnd rest with
        | none => [mkRawFromSegment ds (pre ++ rest)]
        | some (mid, suf2) =>
          mkRawFromSegment ds (pre ++ mid) :: specBlocksLoop bnd fuel suf2

/-- Claim C1's description of the block strategy: one field set per
occurrence of `NOZZLE <digits>`, each block running up to the next
occurrence or the end of the text. -/
def claimBlocks (s : Str) : List NozzleFields :=
  specBlocksLoop hasNozzleStart s.length s

/-- The amended description: blocks end at the next `NOZZLE\s*:` position
(colon required) or the end of the text. -/
def amendedBlocks (s : Str) : List NozzleFields :=
  specBlocksLoop isNozzleColon s.length s

/-! ### Correspondence between the exec loop and the block description -/

theorem splitAtFirst_sat {p : Str → Bool} :
    ∀ {s a b : Str}, splitAtFirst p s = some (a, b) → p b = true
  | [], _, _, h => by simp [splitAtFirst] at h
  | c :: t, a, b, h => by
    by_cases hp : p (c :: t) = true
    · simp only [splitAtFirst, if_pos hp, Option.some.injEq, Prod.mk.injEq] at h
      rw [← h.2]
      exact hp
    · simp only [splitAtFirst, if_neg hp] at h
      cases hsp : splitAtFirst p t with
      | none => rw [hsp] at h; exact absurd h (by simp)
      | some ab =>
        obtain ⟨a', b'⟩ := ab
        rw [hsp] at h
        simp only [Option.some.injEq, Prod.mk.injEq] at h
        rw [← h.2]
        exact splitAtFirst_sat hsp

theorem splitAtFirst_decomp {p : Str → Bool} :
    ∀ {s a b : Str}, splitAtFirst p s = some (a, b) → s = a ++ b
  | [], _, _, h => by simp [splitAtFirst] at h
  | c :: t, a, b, h => by
    by_cases hp : p (c :: t) = true
    · simp only [splitAtFirst, if_pos hp, Option.some.injEq, Prod.mk.injEq] at h
      rw [← h.1, ← h.2]
      rfl
    · simp only [splitAtFirst, if_neg hp] at h
      cases hsp : splitAtFirst p t with
      | none => rw [hsp] at h; exact absurd h (by simp)
      | some ab =>
        obtain ⟨a', b'⟩ := ab
        rw [hsp] at h
        simp only [Option.some.injEq, Prod.mk.injEq] at h
        have ih := splitAtFirst_decomp hsp
        rw [← h.1, ← h.2, ih]
        rfl

theorem splitAtFirst_snd_le {p : Str → Bool} {s a b : Str}
    (h : splitAtFirst p s = some (a, b)) : b.length ≤ s.length := by
  rw [splitAtFirst_decomp h]
  simp

theorem lazyUntil_of_split_some :
    ∀ {s a b : Str}, splitAtFirst isNozzleColon s = some (a, b) → lazyUntil s = (a, b)
  | [], _, _, h => by simp [splitAtFirst] at h
  | c :: t, a, b, h => by
    by_cases hp : isNozzleColon (c :: t) = true
    · simp only [splitAtFirst, if_pos hp, Option.some.injEq, Prod.mk.injEq] at h
      simp [lazyUntil, hp, ← h.1, ← h.2]
    · simp only [splitAtFirst, if_neg hp] at h
      cases hsp : splitAtFirst isNozzleColon t with
      | none => rw [hsp] at h; exact absurd h (by simp)
      | some ab =>
        obtain ⟨a', b'⟩ := ab
        rw [hsp] at h
        simp only [Option.some.injEq, Prod.mk.injEq] at h
        have ih := lazyUntil_of_split_some hsp
        simp [lazyUntil, if_neg hp, ih, ← h.1, ← h.2]

theorem lazyUntil_of_split_none :
    ∀ {s : Str}, splitAtFirst isNozzleColon s = none → lazyUntil s = (s, [])
  | [], _ => rfl
  | c :: t, h => by
    by_cases hp : isNozzleColon (c :: t) = true
    · simp [splitAtFirst, hp] at h
    · simp only [splitAtFirst, if_neg hp] at h
      cases hsp : splitAtFirst isNozzleColon t with
      | some ab => obtain ⟨a', b'⟩ := ab; rw [hsp] at h; exact absurd h (by simp)
      | none =>
        have ih := lazyUntil_of_split_none hsp
        simp [lazyUntil, if_neg hp, ih]

theorem blockLoop_congr : ∀ (fuel fuel' : Nat) (s : Str),
    s.length ≤ fuel → s.length ≤ fuel' → blockLoop fuel s = blockLoop fuel' s
  | 0, fuel', s, h, _ => by
    have hs : s = [] := List.eq_nil_of_length_eq_zero (Nat.le_zero.mp h)
    subst hs
    cases fuel' <;> rfl
  | _ + 1, _, [], _, _ => by
    rename_i fuel'
    cases fuel' <;> rfl
  | fuel + 1, fuel', c :: t, h, h' => by
    cases fuel' with
    | zero => simp at h'
    | succ f' =>
      simp only [List.length_cons, Nat.add_le_add_iff_right] at h h'
      cases hm : matchNozzleStart (c :: t) with
      | none =>
        simp only [blockLoop, hm]
        exact blockLoop_congr fuel f' t h h'
      | some x =>
        obtain ⟨pre, ds, rest⟩ := x
        have hrest : rest.length < t.length + 1 := matchNozzleStart_rest_lt hm
        have hlz : (lazyUntil rest).2.length ≤ rest.length := lazyUntil_snd_len rest
        simp only [blockLoop, hm]
        rw [blockLoop_congr fuel f' (lazyUntil rest).2 (by omega) (by omega)]

theorem specBlocksLoop_congr (bnd : Str → Bool) : ∀ (fuel fuel' : Nat) (s : Str),
    s.length ≤ fuel → s.length ≤ fuel' → specBlocksLoop bnd fuel s = specBlocksLoop bnd fuel' s
  | 0, fuel', s, h, _ => by
    have hs : s = [] := List.eq_nil_of_length_eq_zero (Nat.le_zero.mp h)
    subst hs
    cases fuel' with
    | zero => rfl
    | succ f' => simp [specBlocksLoop, splitAtFirst]
  | fuel + 1, 0, s, _, h' => by
    have hs : s = [] := List.eq_nil_of_length_eq_zero (Nat.le_zero.mp h')
    subst hs
    simp [specBlocksLoop, splitAtFirst]
  | fuel + 1, f' + 1, s, h, h' => by
    cases hsp : splitAtFirst hasNozzleStart s with
    | none => simp only [specBlocksLoop, hsp]
    | some ab =>
      obtain ⟨a, suf⟩ := ab
      cases hm : matchNozzleStart suf with
      | none => simp only [specBlocksLoop, hsp, hm]
      | some x =>
        obtain ⟨pre, ds, rest⟩ := x
        cases hb : splitAtFirst bnd rest with
        | none => simp only [specBlocksLoop, hsp, hm, hb]
        | some mb =>
          obtain ⟨mid, suf2⟩ := mb
          have h1 : suf.length ≤ s.length := splitAtFirst_snd_le hsp
          have h2 : rest.length < suf.length := matchNozzleStart_rest_lt hm
          have h3 : suf2.length ≤ rest.length := splitAtFirst_snd_le hb
          simp only [specBlocksLoop, hsp, hm, hb]
          rw [specBlocksLoop_congr bnd fuel f' suf2 (by omega) (by omega)]

theorem specBlocksLoop_skip {bnd : Str → Bool} {c : Char} {t : Str} (fuel : Nat)
    (h : ¬ hasNozzleStart (c :: t) = true) :
    specBlocksLoop bnd (fuel + 1) (c :: t) = specBlocksLoop bnd (fuel + 1) t := by
  simp only [specBlocksLoop, splitAtFirst, if_neg h]
  cases hsp : splitAtFirst hasNozzleStart t with
  | none => rfl
  | some ab => obtain ⟨a, b⟩ := ab; rfl

theorem blockStrategy_eq_amended_aux :
    ∀ (n : Nat) (s : Str), s.length ≤ n → blockStrategy s = amendedBlocks s
  | 0, s, h => by
    have hs : s = [] := List.eq_nil_of_length_eq_zero (Nat.le_zero.mp h)
    subst hs
    rfl
  | _ + 1, [], _ => rfl
  | n + 1, c :: t, h => by
    simp only [List.length_cons, Nat.add_le_add_iff_right] at h
    show blockLoop (t.length + 1) (c :: t) = specBlocksLoop isNozzleColon (t.length + 1) (c :: t)
    cases hm : matchNozzleStart (c :: t) with
    | none =>
      have hno : ¬ hasNozzleStart (c :: t) = true := by simp [hasNozzleStart, hm]
      rw [specBlocksLoop_skip t.length hno]
      simp only [blockLoop, hm]
      have hspec : specBlocksLoop isNozzleColon (t.length + 1) t
          = specBlocksLoop isNozzleColon t.length t :=
        specBlocksLoop_congr _ _ _ _ (by omega) (le_refl _)
      rw [hspec]
      exact blockStrategy_eq_amended_aux n t h
    | some x =>
      obtain ⟨pre, ds, rest⟩ := x
      have hstart : hasNozzleStart (c :: t) = true := by simp [hasNozzleStart, hm]
      have hsplit : splitAtFirst hasNozzleStart (c :: t) = some ([], c :: t) := by
        simp [splitAtFirst, hstart]
      have hrest : rest.length < t.length + 1 := matchNozzleStart_rest_lt hm
      cases hb : splitAtFirst isNozzleColon rest with
      | none =>
        have hlz := lazyUntil_of_split_none hb
        simp only [blockLoop, hm, hlz, specBlocksLoop, hsplit]
        rw [hb]
        cases t.length <;> rfl
      | some mb =>
        obtain ⟨mid, suf2⟩ := mb
        have hlz := lazyUntil_of_split_some hb
        have hsuf2 : suf2.length ≤ rest.length := splitAtFirst_snd_le hb
        simp only [blockLoop, hm, hlz, specBlocksLoop, hsplit]
        rw [hb]
        refine congrArg (mkRawFromSegment ds (pre ++ mid) :: ·) ?_
        have h1 : blockLoop t.length suf2 = blockLoop suf2.length suf2 :=
          blockLoop_congr _ _ _ (by omega) (le_refl _)
        have h2 : specBlocksLoop isNozzleColon t.length suf2
            = specBlocksLoop isNozzleColon suf2.length suf2 :=
          specBlocksLoop_congr _ _ _ _ (by omega) (le_refl _)
        rw [h1, h2]
        exact blockStrategy_eq_amended_aux n suf2 (by omega)

def c1input : Str := strOf "NOZZLE 1\nA:1\nNOZZLE 2\nA:2"

/-- Claim C1, counterexample: On the text `"NOZZLE 1\nA:1\nNOZZLE 2\nA:2"`
(two occurrences of `NOZZLE <digits>`, no colon after `NOZZLE`), the block
strategy does not produce one field set per occurrence as the claim states:
the lookahead `(?=NOZZLE\s*:|$)` requires a colon, so the first block runs
to the end of the text, swallowing the second occurrence — the code yields
one field set where the claim's block-splitting yields two. -/
theorem c1_counterexample :
    blockStrategy c1input ≠ claimBlocks c1input
    ∧ (blockStrategy c1input).length = 1
    ∧ (claimBlocks c1input).length = 2 := by decide

/-- Claim C1, amended: For every normalized slip text, the block strategy
produces one raw nozzle field set per occurrence of `NOZZLE <digits>` that
starts at or after the end of the previous block, where each nozzle's block
runs from its occurrence up to the next position matching `NOZZLE`,
optional whitespace, then a literal colon (`NOZZLE\s*:`) — not up to the
next bare `NOZZLE <digits>` occurrence — or to the end of the text; the
`A`, `V` and `TOT SALES` fields are searched independently within that
block only. -/
theorem blockStrategy_eq_amendedBlocks (s : Str) : blockStrategy s = amendedBlocks s :=
  blockStrategy_eq_amended_aux s.length s (le_refl _)

/-! ## Slip Parser: line-grouping fallback (route.ts lines 245-265) -/

/-- JavaScript word characters `[A-Za-z0-9_]` (for `\b`). -/
def isWordCh (c : Char) : Bool :=
  isDigitCh c || ('A' ≤ c && c ≤ 'Z') || ('a' ≤ c && c ≤ 'z') || c = '_'

/-- Leftmost match of `m` at a position preceded by a non-word character or
the start of input — the `\b` in front of a word-initial pattern. -/
def scanFirstWB (m : Str → Option Str) : Option Char → Str → Option Str
  | _, [] => none
  | prev, c :: t =>
    if (match prev with | none => true | some p => !isWordCh p) = true then
      match m (c :: t) with
      | some r => some r
      | none => scanFirstWB m (some c) t
    else scanFirstWB m (some c) t

/-- `normalized.split("\n")`. -/
def splitOnNl : Str → List Str
  | [] => [[]]
  | c :: t =>
    if c = '\n' then [] :: splitOnNl t
    else
      match splitOnNl t with
      | h :: r => (c :: h) :: r
      | [] => [[c]]

/-- `line.match(/NOZZLE\s*[:\-]?\s*(\d+)/i)`: the captured digits. -/
def lineNozzleCap (line : Str) : Option Str :=
  scanFirst (fun s => (matchNozzleStart s).map (fun x => x.2.1)) line

/-- `line.match(/\bA\s*[:\-]?\s*([0-9.,]+)/i)`: the captured number. -/
def lineACap (line : Str) : Option Str := scanFirstWB matchA none line

/-- `line.match(/\bV\s*[:\-]?\s*([0-9.,]+)/i)`: the captured number. -/
def lineVCap (line : Str) : Option Str := scanFirstWB matchV none line

/-- `line.match(/TOT\s*SALES\s*[:\-]?\s*([0-9.,]+)/i)`: the captured number. -/
def lineTotCap (line : Str) : Option Str := scanFirst matchTot line

/-- One non-`NOZZLE` line applied to the in-progress record (route.ts lines
256-262): each of the three field patterns is tested and, on a match, the
record's field is assigned the capture — overwriting any previous value. -/
def applyLine (cur : NozzleFields) (line : Str) : NozzleFields :=
  let cur1 := match lineACap line with
    | some x => { cur with a := x }
    | none => cur
  let cur2 := match lineVCap line with
    | some x => { cur1 with v := x }
    | none => cur1
  match lineTotCap line with
  | some x => { cur2 with totSales := x }
  | none => cur2

/-- The line loop of the fallback (route.ts lines 248-263): a `NOZZLE` line
flushes the in-progress record and starts a new one; other lines update the
in-progress record; lines before the first `NOZZLE` line are ignored. -/
def lineLoop : List Str → Option NozzleFields → List NozzleFields
  | [], none => []
  | [], some cur => [cur]
  | line :: rest, st =>
    match lineNozzleCap line with
    | some ds =>
      (match st with | some cur => [cur] | none => []) ++
        lineLoop rest (some ⟨ds, [], [], []⟩)
    | none =>
      match st with
      | none => lineLoop rest none
      | some cur => lineLoop rest (some (applyLine cur line))

/-- The line-grouping fallback (route.ts lines 245-265). -/
def lineFallback (s : Str) : List NozzleFields := lineLoop (splitOnNl s) none

/-- Per claim C2's words: a field is updated only if not already set. -/
def applyLineFirstKept (cur : NozzleFields) (line : Str) : NozzleFields :=
  let cur1 := match lineACap line with
    | some x => if cur.a = [] then { cur with a := x } else cur
    | none => cur
  let cur2 := match lineVCap line with
    | some x => if cur1.v = [] then { cur1 with v := x } else cur1
    | none => cur1
  match lineTotCap line with
  | some x => if cur2.totSales = [] then { cur2 with totSales := x } else cur2
  | none => cur2

/-- The fallback loop as claim C2 describes it (first field match kept). -/
def lineLoopFirstKept : List Str → Option NozzleFields → List NozzleFields
  | [], none => []
  | [], some cur => [cur]
  | line :: rest, st =>
    match lineNozzleCap line with
    | some ds =>
      (match st with | some cur => [cur] | none => []) ++
        lineLoopFirstKept rest (some ⟨ds, [], [], []⟩)
    | none =>
      match st with
      | none => lineLoopFirstKept rest none
      | some cur => lineLoopFirstKept rest (some (applyLineFirstKept cur line))

def lineFallbackFirstKept (s : Str) : List NozzleFields :=
  lineLoopFirstKept (splitOnNl s) none

def c2input : Str := strOf "NOZZLE 1\nA:1\nA:2"

/-- Claim C2, counterexample: In the line-grouping fallback, on the line group
`"NOZZLE 1" / "A:1" / "A:2"`, the code assigns the `A` field on every
matching line, so the later line `A:2` overwrites the earlier `A:1`; the
claim's "first match kept, later matches not applied" reading would keep
`"1"`.  The code keeps `"2"`. -/
theorem c2_counterexample :
    lineFallback c2input ≠ lineFallbackFirstKept c2input
    ∧ (lineFallback c2input).map (fun r => r.a) = [strOf "2"]
    ∧ (lineFallbackFirstKept c2input).map (fun r => r.a) = [strOf "1"] := by decide

/-- Last capture of `f` over a list of lines, starting from `d`. -/
def lastCapture (f : Str → Option Str) (lines : List Str) (d : Str) : Str :=
  lines.foldl (fun acc l => (f l).getD acc) d

theorem applyLine_nozzle (cur : NozzleFields) (line : Str) :
    (applyLine cur line).nozzle = cur.nozzle := by
  unfold applyLine
  cases lineACap line <;> cases lineVCap line <;> cases lineTotCap line <;> rfl

theorem applyLine_a (cur : NozzleFields) (line : Str) :
    (applyLine cur line).a = (lineACap line).getD cur.a := by
  unfold applyLine
  cases lineACap line <;> cases lineVCap line <;> cases lineTotCap line <;> rfl

theorem applyLine_v (cur : NozzleFields) (line : Str) :
    (applyLine cur line).v = (lineVCap line).getD cur.v := by
  unfold applyLine
  cases lineACap line <;> cases lineVCap line <;> cases lineTotCap line <;> rfl

theorem applyLine_tot (cur : NozzleFields) (line : Str) :
    (applyLine cur line).totSales = (lineTotCap line).getD cur.totSales := by
  unfold applyLine
  cases lineACap line <;> cases lineVCap line <;> cases lineTotCap line <;> rfl

theorem foldl_applyLine_nozzle :
    ∀ (lines : List Str) (cur : NozzleFields),
      (lines.foldl applyLine cur).nozzle = cur.nozzle
  | [], _ => rfl
  | l :: ls, cur => by
    rw [List.foldl_cons, foldl_applyLine_nozzle ls, applyLine_nozzle]

theorem foldl_applyLine_a :
    ∀ (lines : List Str) (cur : NozzleFields),
      (lines.foldl applyLine cur).a = lastCapture lineACap lines cur.a
  | [], _ => rfl
  | l :: ls, cur => by
    rw [List.foldl_cons, foldl_applyLine_a ls, applyLine_a]
    rfl

theorem foldl_applyLine_v :
    ∀ (lines : List Str) (cur : NozzleFields),
      (lines.foldl applyLine cur).v = lastCapture lineVCap lines cur.v
  | [], _ => rfl
  | l :: ls, cur => by
    rw [List.foldl_cons, foldl_applyLine_v ls, applyLine_v]
    rfl

theorem foldl_applyLine_tot :
    ∀ (lines : List Str) (cur : NozzleFields),
      (lines.foldl applyLine cur).totSales = lastCapture lineTotCap lines cur.totSales
  | [], _ => rfl
  | l :: ls, cur => by
    rw [List.foldl_cons, foldl_applyLine_tot ls, applyLine_tot]
    rfl

theorem lineLoop_no_nozzle :
    ∀ (lines : List Str) (cur : NozzleFields),
      (∀ l ∈ lines, lineNozzleCap l = none) →
      lineLoop lines (some cur) = [lines.foldl applyLine cur]
  | [], _, _ => rfl
  | l :: ls, cur, h => by
    have hl : lineNozzleCap l = none := h l (by simp)
    have hrest : ∀ x ∈ ls, lineNozzleCap x = none := fun x hx => h x (by simp [hx])
    simp only [lineLoop, hl, List.foldl_cons]
    exact lineLoop_no_nozzle ls (applyLine cur l) hrest

/-- Claim C2, amended: In the line-grouping fallback, within one nozzle's
line group the *last* match of each field pattern wins: every matching line
assigns the field, overwriting the previous value.  Precisely, processing a
group of non-`NOZZLE` lines onto an in-progress record yields exactly one
flushed record whose `a`, `v` and `totSales` fields equal the last capture
of the respective pattern over the group (the starting value if no line
matches), and whose nozzle id is unchanged. -/
theorem c2_amended (lines : List Str) (cur : NozzleFields)
    (h : ∀ l ∈ lines, lineNozzleCap l = none) :
    lineLoop lines (some cur) = [lines.foldl applyLine cur]
    ∧ (lines.foldl applyLine cur).nozzle = cur.nozzle
    ∧ (lines.foldl applyLine cur).a = lastCapture lineACap lines cur.a
    ∧ (lines.foldl applyLine cur).v = lastCapture lineVCap lines cur.v
    ∧ (lines.foldl applyLine cur).totSales = lastCapture lineTotCap lines cur.totSales :=
  ⟨lineLoop_no_nozzle lines cur h, foldl_applyLine_nozzle lines cur,
   foldl_applyLine_a lines cur, foldl_applyLine_v lines cur,
   foldl_applyLine_tot lines cur⟩

/-- Witness for `c2_amended` at the concrete group `["A:1", "A:2"]`:
the flushed record carries `a = "2"` (last match), not `"1"`. -/
theorem c2_amended_witness :
    lineLoop [strOf "A:1", strOf "A:2"] (some ⟨strOf "1", [], [], []⟩)
      = [[strOf "A:1", strOf "A:2"].foldl applyLine ⟨strOf "1", [], [], []⟩]
    ∧ ([strOf "A:1", strOf "A:2"].foldl applyLine ⟨strOf "1", [], [], []⟩).a
      = lastCapture lineACap [strOf "A:1", strOf "A:2"] [] := by
  refine ⟨(c2_amended _ _ ?_).1, (c2_amended _ _ ?_).2.2.1⟩ <;> decide

/-! ## JavaScript numeric coercions -/

def digitsVal (ds : Str) : Nat := ds.foldl (fun acc c => acc * 10 + (c.toNat - 48)) 0

/-- `parseInt(s, 10)` (and `parseInt(s)` on the non-hex strings this system
stores): skip leading whitespace, optional sign, then leading decimal
digits; `none` models `NaN`. -/
def jsParseInt (s : Str) : Option ℤ :=
  match s.dropWhile isWs with
  | '-' :: r => if r.takeWhile isDigitCh = [] then none
      else some (-(digitsVal (r.takeWhile isDigitCh) : ℤ))
  | '+' :: r => if r.takeWhile isDigitCh = [] then none
      else some (digitsVal (r.takeWhile isDigitCh) : ℤ)
  | t => if t.takeWhile isDigitCh = [] then none
      else some (digitsVal (t.takeWhile isDigitCh) : ℤ)

/-- `parseInt(...) || 0`: `NaN` is falsy and becomes `0`; `0 || 0` is `0`. -/
def jsParseIntOr0 (s : Str) : ℤ := (jsParseInt s).getD 0

/-- Decimal magnitude `digits [ '.' digits ]` at the head of `t`; `none`
when no digit is present. -/
def decMagnitude (t : Str) : Option ℚ :=
  let ip := t.takeWhile isDigitCh
  let fp : Str := match t.dropWhile isDigitCh with
    | '.' :: fr => fr.takeWhile isDigitCh
    | _ => []
  if ip = [] ∧ fp = [] then none
  else some ((digitsVal ip : ℚ) + (digitsVal fp : ℚ) / ((10 : ℚ) ^ fp.length))

/-- `Number.parseFloat(s)` on plain decimal notation (sign, digits, optional
fraction) — the only shapes the pipeline stores; parsing stops at the first
invalid character, `none` models `NaN`. -/
def jsParseFloat (s : Str) : Option ℚ :=
  match s.dropWhile isWs with
  | '-' :: r => (decMagnitude r).map (fun q => -q)
  | '+' :: r => decMagnitude r
  | t => decMagnitude t

/-- `parseFloat(...) || 0`. -/
def jsParseFloatOr0 (s : Str) : ℚ := (jsParseFloat s).getD 0

/-! ## Comparison Engine (src/unnamed/part_000) -/

/-- One entry of `nozzleData` in the comparison API response. -/
structure NozzleData where
  nozzle : Str
  sales : ℚ
  volume : ℚ
  pricePerLiter : ℚ
deriving DecidableEq

/-- The per-receipt totals computed by `processReceipt` (part_000 lines
84-128), date and receipt id omitted (no claim touches them). -/
structure ProcessedReceipt where
  totalSales : ℚ
  totalVolume : ℚ
  revenuePerLiter : ℚ
  nozzleData : List NozzleData
deriving DecidableEq

/-- Lines 100-109 of part_000. -/
def mkNozzleData (nz : NozzleFields) : NozzleData :=
  let sales : ℚ := ((jsParseIntOr0 nz.totSales : ℤ) : ℚ)
  let volume := jsParseFloatOr0 nz.v
  { nozzle := nz.nozzle, sales := sales, volume := volume,
    pricePerLiter := if volume > 0 then sales / volume else 0 }

/-- `processReceipt` (part_000 lines 84-128); the running totals of the
loop are the sums over the mapped entries. -/
def processReceiptData (ns : List NozzleFields) : ProcessedReceipt :=
  let nd := ns.map mkNozzleData
  let totalSales := (nd.map (fun n => n.sales)).sum
  let totalVolume := (nd.map (fun n => n.volume)).sum
  { totalSales := totalSales, totalVolume := totalVolume,
    revenuePerLiter := if totalVolume > 0 then totalSales / totalVolume else 0,
    nozzleData := nd }

structure DifferenceData where
  sales : ℚ
  volume : ℚ
  salesPercentChange : ℚ
  volumePercentChange : ℚ
deriving DecidableEq

/-- The aggregate difference block (part_000 lines 43-64). -/
def comparisonDifference (current previous : ProcessedReceipt) : DifferenceData :=
  let salesDiff := current.totalSales - previous.totalSales
  let volumeDiff := current.totalVolume - previous.totalVolume
  { sales := salesDiff, volume := volumeDiff,
    salesPercentChange :=
      if previous.totalSales > 0 then salesDiff / previous.totalSales * 100 else 0,
    volumePercentChange :=
      if previous.totalVolume > 0 then volumeDiff / previous.totalVolume * 100 else 0 }

/-! ## Per-nozzle comparison rows (daily-comparison/page.tsx lines 202-241) -/

structure NozzleComparisonRow where
  nozzle : Str
  currentSales : ℚ
  previousSales : ℚ
  salesDiff : ℚ
  salesPercentChange : ℚ
  currentVolume : ℚ
  previousVolume : ℚ
  volumeDiff : ℚ
  volumePercentChange : ℚ
deriving DecidableEq

/-- JS `Set` accumulation: insertion order, first occurrence kept. -/
def addUnique (acc : List Str) (x : Str) : List Str :=
  if x ∈ acc then acc else acc ++ [x]

/-- `combinedNozzles` (page.tsx lines 204-208): ids of the current receipt
then of the previous receipt, deduplicated in insertion order. -/
def combinedNozzles (cur prev : List NozzleData) : List Str :=
  (cur.map (fun n => n.nozzle) ++ prev.map (fun n => n.nozzle)).foldl addUnique []

/-- One comparison row (page.tsx lines 211-240).  `?.sales || 0` maps a
missing nozzle — and a stored `0` — to `0`, modelled by `getD 0`. -/
def mkRow (cur prev : List NozzleData) (nid : Str) : NozzleComparisonRow :=
  let cn := cur.find? (fun n => n.nozzle == nid)
  let pn := prev.find? (fun n => n.nozzle == nid)
  let currentSales := (cn.map (fun n => n.sales)).getD 0
  let previousSales := (pn.map (fun n => n.sales)).getD 0
  let currentVolume := (cn.map (fun n => n.volume)).getD 0
  let previousVolume := (pn.map (fun n => n.volume)).getD 0
  let salesDiff := currentSales - previousSales
  let volumeDiff := currentVolume - previousVolume
  { nozzle := nid,
    currentSales := currentSales, previousSales := previousSales,
    salesDiff := salesDiff,
    salesPercentChange :=
      if previousSales > 0 then salesDiff / previousSales * 100 else 0,
    currentVolume := currentVolume, previousVolume := previousVolume,
    volumeDiff := volumeDiff,
    volumePercentChange :=
      if previousVolume > 0 then volumeDiff / previousVolume * 100 else 0 }

/-- The per-nozzle comparison table (page.tsx lines 211-241). -/
def nozzleComparison (cur prev : List NozzleData) : List NozzleComparisonRow :=
  (combinedNozzles cur prev).map (mkRow cur prev)

/-! ## Dashboard aggregation (dashboard/route.ts lines 26-137) -/

structure StoredOcr where
  nozzles : Option (List NozzleFields)
deriving DecidableEq

structure StoredReceipt where
  ocrData : Option StoredOcr
deriving DecidableEq

/-- The nozzle list a receipt contributes to the fold: line 44's guard
`receipt.ocrData && receipt.ocrData.nozzles` skips a receipt whose
`ocrData` or `nozzles` key is absent (an empty array is truthy and passes,
contributing nothing). -/
def dashNozzles (r : StoredReceipt) : List NozzleFields :=
  match r.ocrData with
  | none => []
  | some o => o.nozzles.getD []

structure FuelDist where
  petrol : ℚ
  diesel : ℚ
  premium : ℚ
deriving DecidableEq

/-- Lines 92-101: classify by the parsed nozzle number (`parseInt || 0`)
and accumulate the parsed volume into that category. -/
def classifyAdd (d : FuelDist) (nz : NozzleFields) : FuelDist :=
  if jsParseIntOr0 nz.nozzle = 1 then { d with petrol := d.petrol + jsParseFloatOr0 nz.v }
  else if jsParseIntOr0 nz.nozzle = 2 then { d with diesel := d.diesel + jsParseFloatOr0 nz.v }
  else { d with premium := d.premium + jsParseFloatOr0 nz.v }

def fuelDistOf (rs : List StoredReceipt) : FuelDist :=
  rs.foldl (fun d r => (dashNozzles r).foldl classifyAdd d) ⟨0, 0, 0⟩

/-- `Object.values(fuelDistributionVolume).reduce((sum, v) => sum + v, 0)`
(lines 117-120), in object-key order Petrol, Diesel, Premium. -/
def distTotal (d : FuelDist) : ℚ := 0 + d.petrol + d.diesel + d.premium

/-- Lines 121-126: percentage of total volume, zero-guarded. -/
def pctOf (d : FuelDist) (v : ℚ) : ℚ :=
  if distTotal d > 0 then v / distTotal d * 100 else 0

/-- The `fuelTypeData` array of the response (lines 121-126). -/
def fuelTypeData (d : FuelDist) : List (Str × ℚ) :=
  [(strOf "Petrol", pctOf d d.petrol), (strOf "Diesel", pctOf d d.diesel),
   (strOf "Premium", pctOf d d.premium)]

/-- Lines 68-72: `if (nozzle.totSales) totalSales += parseInt(...) || 0`. -/
def addSales (acc : ℤ) (nz : NozzleFields) : ℤ :=
  if nz.totSales ≠ [] then acc + jsParseIntOr0 nz.totSales else acc

/-- Lines 75-79: `if (nozzle.v) volumeSold += parseFloat(...) || 0`. -/
def addVolume (acc : ℚ) (nz : NozzleFields) : ℚ :=
  if nz.v ≠ [] then acc + jsParseFloatOr0 nz.v else acc

/-- Lines 82-90: density sample accumulation. -/
def addDensity (st : ℚ × ℕ) (nz : NozzleFields) : ℚ × ℕ :=
  if nz.a ≠ [] ∧ nz.v ≠ [] then
    if jsParseFloatOr0 nz.v > 0
    then (st.1 + jsParseFloatOr0 nz.a / jsParseFloatOr0 nz.v, st.2 + 1)
    else st
  else st

structure DashboardOut where
  totalSales : ℤ
  volumeSold : ℚ
  averageDensity : ℚ
  transactions : ℕ
  fuelTypeData : List (Str × ℚ)
deriving DecidableEq

/-- The dashboard GET aggregation (lines 26-137); the month bucketing of
`salesByMonth`/`volumeByMonth` is omitted (no claim touches it).
`transactions := rs.length` is line 28: `const transactions = receipts.length`. -/
def dashboardGET (rs : List StoredReceipt) : DashboardOut :=
  { totalSales := rs.foldl (fun acc r => (dashNozzles r).foldl addSales acc) 0,
    volumeSold := rs.foldl (fun acc r => (dashNozzles r).foldl addVolume acc) 0,
    averageDensity :=
      (fun density => if density.2 > 0 then density.1 / (density.2 : ℚ) else 0)
        (rs.foldl (fun st r => (dashNozzles r).foldl addDensity st) (0, 0)),
    transactions := rs.length,
    fuelTypeData := fuelTypeData (fuelDistOf rs) }

/-! ## Fuel-type classification paths (C6) -/

def strPetrol : Str := strOf "Petrol"
def strDiesel : Str := strOf "Diesel"
def strPremium : Str := strOf "Premium"
def strOther : Str := strOf "Other"

/-- The dashboard route's classification (route.ts lines 93-101), viewed as
the name of the category whose volume is bumped. -/
def dashFuelType (nzStr : Str) : Str :=
  if jsParseIntOr0 nzStr = 1 then strPetrol
  else if jsParseIntOr0 nzStr = 2 then strDiesel
  else strPremium

/-- `getFuelType` (daily-comparison/page.tsx lines 262-268). -/
def getFuelType (nozzleId : Str) : Str :=
  match jsParseInt nozzleId with
  | none => strOther
  | some id =>
    if id = 0 then strOther
    else if id = 1 then strPetrol
    else if id = 2 then strDiesel
    else strPremium

/-! ## OCR failure cascade (C8) -/

structure OcrPayload where
  pumpSerialNumber : Str
  printDate : Str
  model : Str
  nozzles : List NozzleFields
deriving DecidableEq

/-- The hardcoded four-nozzle dataset (dashboard/route.ts lines 406-416). -/
def staticDefaultOcr : OcrPayload :=
  { pumpSerialNumber := strOf "583227", printDate := strOf "22-APR-2025",
    model := strOf "2422",
    nozzles :=
      [⟨strOf "1", strOf "7709841.690", strOf "98656.300", strOf "71064"⟩,
       ⟨strOf "2", strOf "146428768.400", strOf "1749654.670", strOf "133665"⟩,
       ⟨strOf "3", strOf "174720023.050", strOf "2105157.410", strOf "145644"⟩,
       ⟨strOf "4", strOf "6280158.210", strOf "74270.160", strOf "47422"⟩] }

/-- dashboard/route.ts line 404: the empty structure. -/
def emptyOcr : OcrPayload := ⟨[], [], [], []⟩

def isPrefixCI : Str → Str → Bool
  | [], _ => true
  | _ :: _, [] => false
  | k :: ks, c :: cs => chEqCI k c && isPrefixCI ks cs

/-- `filePath.toLowerCase().includes("uploads")` — since the needle is
lower-case ASCII, lowercasing-then-includes is case-insensitive containment. -/
def containsCI (needle : Str) : Str → Bool
  | [] => needle.isEmpty
  | c :: t => isPrefixCI needle (c :: t) || containsCI needle t

def pathHasUploads (filePath : Str) : Bool := containsCI (strOf "uploads") filePath

/-- The OCR cascade of the older embedded route (dashboard/route.ts lines
290-419): the external Python result, else the node fallback result, else —
when the file path mentions `uploads` — the static default dataset,
otherwise an empty structure.  `none` models a failed stage. -/
def oldRouteOcr (python nodeFallback : Option OcrPayload) (filePath : Str) : OcrPayload :=
  match python with
  | some d => d
  | none =>
    match nodeFallback with
    | some d => d
    | none => if pathHasUploads filePath then staticDefaultOcr else emptyOcr

inductive ProcessOutcome where
  | saved (data : OcrPayload)
  | failed422
deriving DecidableEq

/-- The active route (receipts/process/route.ts lines 143-292): on total OCR
failure it returns HTTP 422 ("return error instead of fake data"); the file
path is never consulted for a default. -/
def currentRouteOutcome (python nodeFallback : Option OcrPayload) : ProcessOutcome :=
  match python with
  | some d => ProcessOutcome.saved d
  | none =>
    match nodeFallback with
    | some d => ProcessOutcome.saved d
    | none => ProcessOutcome.failed422

/-! ## Stored ocrData keys vs the comparison route's read (C10) -/

inductive OcrKey where
  | pumpSerialNumber
  | printDate
  | model
  | nozzles
  | pumpSerial
deriving DecidableEq

inductive OcrVal where
  | str (s : Str)
  | arr (ns : List NozzleFields)
deriving DecidableEq

/-- A stored `ocrData` JSON object, as a key-value list. -/
abbrev OcrObj := List (OcrKey × OcrVal)

def getKey (o : OcrObj) (k : OcrKey) : Option OcrVal :=
  (o.find? (fun p => p.1 == k)).map (fun p => p.2)

/-- The `ocrData` object persisted by the processing pipeline
(receipts/process/route.ts lines 268-273; the static-default dataset of
dashboard/route.ts lines 406-416 uses the same keys). -/
def mkStoredOcrObj (serial date modelNum : Str) (ns : List NozzleFields) : OcrObj :=
  [(OcrKey.pumpSerialNumber, OcrVal.str serial),
   (OcrKey.printDate, OcrVal.str date),
   (OcrKey.model, OcrVal.str modelNum),
   (OcrKey.nozzles, OcrVal.arr ns)]

/-- Modelled from the spec: the external Python OCR processor
(`lib/receipt_processor.py`, absent from `src/`) emits the structured shape
`{pumpSerialNumber, printDate, model, nozzles}` (spec §6), stored verbatim
by the route, hence an object with exactly these keys. -/
def pythonOcrObj (serial date modelNum : Str) (ns : List NozzleFields) : OcrObj :=
  mkStoredOcrObj serial date modelNum ns

/-- `receipt.ocrData?.pumpSerial || "Unknown"` (part_000 line 126): an
absent key reads as `undefined` (falsy), an empty string is falsy too. -/
def readPumpSerial (ocr : Option OcrObj) : Str :=
  match ocr with
  | none => strOf "Unknown"
  | some o =>
    match getKey o OcrKey.pumpSerial with
    | some (OcrVal.str s) => if s = [] then strOf "Unknown" else s
    | _ => strOf "Unknown"

/-! ## C3: union completeness of the per-nozzle comparison -/

theorem mem_foldl_addUnique : ∀ (l acc : List Str) (x : Str),
    x ∈ l.foldl addUnique acc ↔ x ∈ acc ∨ x ∈ l
  | [], acc, x => by simp
  | y :: l, acc, x => by
    rw [List.foldl_cons, mem_foldl_addUnique l]
    unfold addUnique
    by_cases hy : y ∈ acc
    · rw [if_pos hy]
      simp only [List.mem_cons]
      constructor
      · rintro (h | h)
        · exact Or.inl h
        · exact Or.inr (Or.inr h)
      · rintro (h | h | h)
        · exact Or.inl h
        · exact Or.inl (h ▸ hy)
        · exact Or.inr h
    · rw [if_neg hy]
      simp only [List.mem_append, List.mem_singleton, List.mem_cons]
      tauto

theorem nodup_foldl_addUnique : ∀ (l acc : List Str), acc.Nodup → (l.foldl addUnique acc).Nodup
  | [], _, h => h
  | y :: l, acc, h => by
    rw [List.foldl_cons]
    apply nodup_foldl_addUnique l
    unfold addUnique
    by_cases hy : y ∈ acc
    · rwa [if_pos hy]
    · rw [if_neg hy]
      exact List.Nodup.append h (List.nodup_singleton y)
        (fun a ha hb => hy (List.mem_singleton.mp hb ▸ ha))

theorem nozzleComparison_ids (cur prev : List NozzleData) :
    (nozzleComparison cur prev).map (fun r => r.nozzle) = combinedNozzles cur prev := by
  unfold nozzleComparison
  rw [List.map_map]
  have h : ((fun r : NozzleComparisonRow => r.nozzle) ∘ mkRow cur prev) = id :=
    funext fun _ => rfl
  rw [h, List.map_id]

/-- Claim C3: The per-nozzle comparison produces exactly one row per element
of the union of nozzle ids of the two receipts (no id dropped, none
fabricated, no duplicates), and a nozzle absent from one receipt is
compared against zero sales and zero volume rather than skipped. -/
theorem nozzleComparison_union (cur prev : List NozzleData) :
    ((nozzleComparison cur prev).map (fun r => r.nozzle)).Nodup
    ∧ (∀ nid : Str, nid ∈ (nozzleComparison cur prev).map (fun r => r.nozzle)
        ↔ nid ∈ cur.map (fun n => n.nozzle) ∨ nid ∈ prev.map (fun n => n.nozzle))
    ∧ (∀ row ∈ nozzleComparison cur prev,
        (row.nozzle ∉ prev.map (fun n => n.nozzle) →
          row.previousSales = 0 ∧ row.previousVolume = 0)
        ∧ (row.nozzle ∉ cur.map (fun n => n.nozzle) →
          row.currentSales = 0 ∧ row.currentVolume = 0)) := by
  refine ⟨?_, ?_, ?_⟩
  · rw [nozzleComparison_ids]
    exact nodup_foldl_addUnique _ [] List.nodup_nil
  · intro nid
    rw [nozzleComparison_ids]
    unfold combinedNozzles
    rw [mem_foldl_addUnique]
    simp
  · intro row hrow
    obtain ⟨nid, _, rfl⟩ := List.mem_map.mp hrow
    have hnid : (mkRow cur prev nid).nozzle = nid := rfl
    constructor
    · intro hnot
      rw [hnid] at hnot
      have hf : prev.find? (fun n => n.nozzle == nid) = none := by
        rw [List.find?_eq_none]
        intro x hx he
        exact hnot (List.mem_map.mpr ⟨x, hx, by simpa using he⟩)
      constructor
      · show ((prev.find? (fun n => n.nozzle == nid)).map (fun n => n.sales)).getD 0 = 0
        rw [hf]
        rfl
      · show ((prev.find? (fun n => n.nozzle == nid)).map (fun n => n.volume)).getD 0 = 0
        rw [hf]
        rfl
    · intro hnot
      rw [hnid] at hnot
      have hf : cur.find? (fun n => n.nozzle == nid) = none := by
        rw [List.find?_eq_none]
        intro x hx he
        exact hnot (List.mem_map.mpr ⟨x, hx, by simpa using he⟩)
      constructor
      · show ((cur.find? (fun n => n.nozzle == nid)).map (fun n => n.sales)).getD 0 = 0
        rw [hf]
        rfl
      · show ((cur.find? (fun n => n.nozzle == nid)).map (fun n => n.volume)).getD 0 = 0
        rw [hf]
        rfl

def nd1 : NozzleData := ⟨strOf "1", 100, 50, 2⟩
def nd2 : NozzleData := ⟨strOf "2", 200, 80, (5 : ℚ) / 2⟩

/-- Witness for `nozzleComparison_union`: one receipt has only nozzle 1,
the other only nozzle 2; the rows cover both ids and the one-sided nozzles
read zero on the missing side. -/
theorem nozzleComparison_union_witness :
    ((nozzleComparison [nd1] [nd2]).map (fun r => r.nozzle)).Nodup
    ∧ (strOf "2" ∈ (nozzleComparison [nd1] [nd2]).map (fun r => r.nozzle)
        ↔ strOf "2" ∈ [nd1].map (fun n => n.nozzle) ∨ strOf "2" ∈ [nd2].map (fun n => n.nozzle))
    ∧ ((mkRow [nd1] [nd2] (strOf "1")).previousSales = 0
        ∧ (mkRow [nd1] [nd2] (strOf "1")).previousVolume = 0) :=
  ⟨(nozzleComparison_union [nd1] [nd2]).1,
   (nozzleComparison_union [nd1] [nd2]).2.1 (strOf "2"),
   ((nozzleComparison_union [nd1] [nd2]).2.2 (mkRow [nd1] [nd2] (strOf "1"))
      (List.mem_map.mpr ⟨strOf "1", by decide, rfl⟩)).1 (by decide)⟩

/-! ## C4: zero-guard of the percent-change computations -/

/-- Claim C4: Every percent-change computation — aggregate sales and volume
change in the Comparison Engine, and per-nozzle sales and volume change in
the comparison page — reports `0` when the previous value (the denominator)
is `0`; no division by zero occurs. -/
theorem percent_change_zero_guard (cur prev : ProcessedReceipt)
    (curL prevL : List NozzleData) (nid : Str) :
    (prev.totalSales = 0 → (comparisonDifference cur prev).salesPercentChange = 0)
    ∧ (prev.totalVolume = 0 → (comparisonDifference cur prev).volumePercentChange = 0)
    ∧ ((mkRow curL prevL nid).previousSales = 0 →
        (mkRow curL prevL nid).salesPercentChange = 0)
    ∧ ((mkRow curL prevL nid).previousVolume = 0 →
        (mkRow curL prevL nid).volumePercentChange = 0) := by
  refine ⟨fun h => ?_, fun h => ?_, fun h => ?_, fun h => ?_⟩
  · show (if prev.totalSales > 0
        then (cur.totalSales - prev.totalSales) / prev.totalSales * 100 else 0) = 0
    rw [h]
    simp
  · show (if prev.totalVolume > 0
        then (cur.totalVolume - prev.totalVolume) / prev.totalVolume * 100 else 0) = 0
    rw [h]
    simp
  · have hx : (mkRow curL prevL nid).salesPercentChange
        = if (mkRow curL prevL nid).previousSales > 0
          then ((mkRow curL prevL nid).currentSales - (mkRow curL prevL nid).previousSales)
              / (mkRow curL prevL nid).previousSales * 100
          else 0 := rfl
    rw [hx, h]
    simp
  · have hx : (mkRow curL prevL nid).volumePercentChange
        = if (mkRow curL prevL nid).previousVolume > 0
          then ((mkRow curL prevL nid).currentVolume - (mkRow curL prevL nid).previousVolume)
              / (mkRow curL prevL nid).previousVolume * 100
          else 0 := rfl
    rw [hx, h]
    simp

/-- Witness for `percent_change_zero_guard`: the spec's scenario — previous
totals 0, current sales 500 — gives `salesDiff = 500`, `salesPercentChange
= 0` (guarded, not infinite). -/
theorem percent_change_zero_guard_witness :
    (comparisonDifference ⟨500, 0, 0, []⟩ ⟨0, 0, 0, []⟩).sales = 500
    ∧ (comparisonDifference ⟨500, 0, 0, []⟩ ⟨0, 0, 0, []⟩).salesPercentChange = 0 :=
  ⟨by norm_num [comparisonDifference],
   (percent_change_zero_guard ⟨500, 0, 0, []⟩ ⟨0, 0, 0, []⟩ [] [] []).1 rfl⟩

/-! ## C5: fuel-type distribution percentages -/

/-- Claim C5: For every receipt history, if the total classified volume is
positive the three `fuelTypeDistribution` percentages sum to exactly 100
(exact rationals, so no floating tolerance is even needed); if the total is
0, every category reports 0 and no division by zero occurs. -/
theorem fuelTypeDistribution_sums (rs : List StoredReceipt) :
    (0 < distTotal (fuelDistOf rs) →
      ((fuelTypeData (fuelDistOf rs)).map (fun p => p.2)).sum = 100)
    ∧ (distTotal (fuelDistOf rs) = 0 →
      ∀ p ∈ fuelTypeData (fuelDistOf rs), p.2 = 0) := by
  set d := fuelDistOf rs with hd
  constructor
  · intro h
    have ht : distTotal d ≠ 0 := ne_of_gt h
    have htv : d.petrol + d.diesel + d.premium ≠ 0 := by
      intro hz
      exact ht (by unfold distTotal; linarith)
    simp only [fuelTypeData, List.map_cons, List.map_nil, List.sum_cons,
      List.sum_nil, pctOf, if_pos h]
    have hdt : distTotal d = d.petrol + d.diesel + d.premium := by
      unfold distTotal
      ring
    rw [hdt]
    field_simp
    ring
  · intro h p hp
    have hn : ¬ distTotal d > 0 := by
      rw [h]
      exact lt_irrefl 0
    simp only [fuelTypeData, List.mem_cons, List.not_mem_nil, or_false] at hp
    rcases hp with rfl | rfl | rfl <;> simp [pctOf, hn]

def c5rs : List StoredReceipt := [⟨some ⟨some [⟨strOf "3", [], strOf "10", []⟩]⟩⟩]

/-- Witness for `fuelTypeDistribution_sums`: a one-receipt history with a
single nozzle of volume 10 (total positive) sums to 100; the empty history
(total zero) reports 0 in each category. -/
theorem fuelTypeDistribution_sums_witness :
    ((fuelTypeData (fuelDistOf c5rs)).map (fun p => p.2)).sum = 100
    ∧ ∀ p ∈ fuelTypeData (fuelDistOf ([] : List StoredReceipt)), p.2 = 0 := by
  refine ⟨(fuelTypeDistribution_sums c5rs).1 ?_, (fuelTypeDistribution_sums []).2 ?_⟩
  · have e : fuelDistOf c5rs = ⟨0, 0, 0 + jsParseFloatOr0 (strOf "10")⟩ := rfl
    have e2 : jsParseFloatOr0 (strOf "10") = 10 := by
      have e3 : jsParseFloat (strOf "10")
          = some (((10 : ℕ) : ℚ) + ((0 : ℕ) : ℚ) / (10 : ℚ) ^ (0 : ℕ)) := rfl
      rw [jsParseFloatOr0, e3]
      norm_num
    rw [e]
    simp only [distTotal, e2]
    norm_num
  · norm_num [distTotal, fuelDistOf]

/-! ## C6: the two fuel-type classification paths -/

/-- Claim C6, counterexample: The claim says every classifying code path maps
any id other than 1 and 2 — including 0 and unparsable ids — to Premium.
The comparison page's `getFuelType` maps `"0"` and `"x"` to `"Other"`, not
`"Premium"`, while the dashboard path maps `"0"` to Premium: the two paths
disagree and the claim fails on `getFuelType`. -/
theorem getFuelType_zero_not_premium :
    getFuelType (strOf "0") = strOther
    ∧ getFuelType (strOf "0") ≠ strPremium
    ∧ getFuelType (strOf "x") = strOther
    ∧ dashFuelType (strOf "0") = strPremium
    ∧ dashFuelType (strOf "x") = strPremium := by decide

/-- Claim C6, amended: Both classification paths are deterministic,
stateless functions of the nozzle id string: 1 maps to Petrol and 2 to
Diesel in both; any other id maps to Premium in the dashboard aggregation
path (including 0 and unparsable ids, which `parseInt(...) || 0` turns
into 0), whereas in the comparison page's `getFuelType` an id of 0 or an
unparsable id maps to Other and only parsable ids outside {0, 1, 2} map to
Premium. -/
theorem fuel_classification (s : Str) :
    (jsParseIntOr0 s = 1 → dashFuelType s = strPetrol)
    ∧ (jsParseIntOr0 s = 2 → dashFuelType s = strDiesel)
    ∧ (jsParseIntOr0 s ≠ 1 → jsParseIntOr0 s ≠ 2 → dashFuelType s = strPremium)
    ∧ (∀ (d : FuelDist) (a v t : Str), jsParseIntOr0 s ≠ 1 → jsParseIntOr0 s ≠ 2 →
        (classifyAdd d ⟨s, a, v, t⟩).premium = d.premium + jsParseFloatOr0 v)
    ∧ (jsParseInt s = some 1 → getFuelType s = strPetrol)
    ∧ (jsParseInt s = some 2 → getFuelType s = strDiesel)
    ∧ (∀ n : ℤ, jsParseInt s = some n → n ≠ 0 → n ≠ 1 → n ≠ 2 →
        getFuelType s = strPremium)
    ∧ ((jsParseInt s = none ∨ jsParseInt s = some 0) → getFuelType s = strOther) := by
  refine ⟨fun h => ?_, fun h => ?_, fun h1 h2 => ?_, fun d a v t h1 h2 => ?_,
    fun h => ?_, fun h => ?_, fun n h h0 h1 h2 => ?_, fun h => ?_⟩
  · simp [dashFuelType, h]
  · simp [dashFuelType, h]
  · simp [dashFuelType, h1, h2]
  · simp [classifyAdd, h1, h2]
  · simp [getFuelType, h]
  · simp [getFuelType, h]
  · simp [getFuelType, h, h0, h1, h2]
  · rcases h with h | h <;> simp [getFuelType, h]

/-- Witness for `fuel_classification` at parsable ids 1, 2, 7 and the
unparsable id `"x"`. -/
theorem fuel_classification_witness :
    dashFuelType (strOf "1") = strPetrol
    ∧ getFuelType (strOf "2") = strDiesel
    ∧ getFuelType (strOf "7") = strPremium
    ∧ getFuelType (strOf "x") = strOther :=
  ⟨(fuel_classification (strOf "1")).1 (by decide),
   (fuel_classification (strOf "2")).2.2.2.2.2.1 (by decide),
   (fuel_classification (strOf "7")).2.2.2.2.2.2.1 7 (by decide)
     (by decide) (by decide) (by decide),
   (fuel_classification (strOf "x")).2.2.2.2.2.2.2 (Or.inl (by decide))⟩

/-! ## C7: transaction count -/

/-- Claim C7's description of the processed receipts: those with a
non-empty nozzle set. -/
def specProcessedCount (rs : List StoredReceipt) : ℕ :=
  rs.countP (fun r => !(dashNozzles r).isEmpty)

def noOcrReceipt : StoredReceipt := ⟨none⟩

/-- Claim C7, counterexample: A history consisting of one receipt with no OCR
data: the fold processes zero receipts, yet `transactions` is
`receipts.length = 1` — a skipped receipt does contribute to the count,
contradicting the claim. -/
theorem transactions_count_skipped :
    (dashboardGET [noOcrReceipt]).transactions = 1
    ∧ specProcessedCount [noOcrReceipt] = 0
    ∧ (dashboardGET [noOcrReceipt]).transactions ≠ specProcessedCount [noOcrReceipt] := by
  decide

theorem countP_split : ∀ rs : List StoredReceipt,
    rs.length = specProcessedCount rs + rs.countP (fun r => (dashNozzles r).isEmpty)
  | [] => rfl
  | r :: rs => by
    have ih := countP_split rs
    unfold specProcessedCount at ih ⊢
    simp only [List.length_cons, List.countP_cons, ih]
    by_cases h : (dashNozzles r).isEmpty = true <;> simp [h] <;> omega

/-- Claim C7, amended: `transactionCount` equals the total number of
receipts in the fetched history — `receipts.length`, counted before the
fold's skip guard — i.e. the processed receipts plus the skipped ones
(missing OCR data or empty nozzle set); it is not the number of nozzles. -/
theorem transactions_eq_receipts_length (rs : List StoredReceipt) :
    (dashboardGET rs).transactions = rs.length
    ∧ (dashboardGET rs).transactions
      = specProcessedCount rs + rs.countP (fun r => (dashNozzles r).isEmpty) :=
  ⟨rfl, countP_split rs⟩

/-! ## C8: the static-default fallback -/

def uploadsPath : Str := strOf "/var/app/public/uploads/receipt.jpg"

/-- Claim C8, counterexample: In the active receipt-processing route, when
both OCR stages fail — even for a file path containing `uploads` — the
route reports the failure (HTTP 422) to the caller; it does not fall back
to the static dataset. -/
theorem currentRoute_fails_not_fabricates :
    pathHasUploads uploadsPath = true
    ∧ currentRouteOutcome none none = ProcessOutcome.failed422
    ∧ currentRouteOutcome none none ≠ ProcessOutcome.saved staticDefaultOcr := by decide

/-- Claim C8, amended: The *older* receipt-processing route embedded in
dashboard/route.ts behaves as the claim says: when both the external OCR
process and the in-process fallback fail and the path contains `uploads`,
it silently substitutes the fixed four-nozzle dataset (pump serial 583227,
print date 22-APR-2025) shaped exactly like a genuine reading; without
`uploads` it substitutes an empty structure.  The *active* route in
receipts/process/route.ts instead reports the failure (HTTP 422) to the
caller in every total-failure case. -/
theorem static_fallback_behaviour (python node : Option OcrPayload) (path : Str) :
    (python = none → node = none → pathHasUploads path = true →
      oldRouteOcr python node path = staticDefaultOcr)
    ∧ (python = none → node = none → pathHasUploads path = false →
      oldRouteOcr python node path = emptyOcr)
    ∧ (python = none → node = none → currentRouteOutcome python node = ProcessOutcome.failed422)
    ∧ (staticDefaultOcr.pumpSerialNumber = strOf "583227"
       ∧ staticDefaultOcr.printDate = strOf "22-APR-2025"
       ∧ staticDefaultOcr.nozzles.length = 4) := by
  refine ⟨?_, ?_, ?_, by decide⟩
  · rintro rfl rfl h
    simp [oldRouteOcr, h]
  · rintro rfl rfl h
    simp [oldRouteOcr, h]
  · rintro rfl rfl
    rfl

/-- Witness for `static_fallback_behaviour` at a concrete uploads path with
both stages failed. -/
theorem static_fallback_behaviour_witness :
    oldRouteOcr none none uploadsPath = staticDefaultOcr
    ∧ currentRouteOutcome none none = ProcessOutcome.failed422 :=
  ⟨(static_fallback_behaviour none none uploadsPath).1 rfl rfl (by decide),
   (static_fallback_behaviour none none uploadsPath).2.2.1 rfl rfl⟩

/-! ## C10: the pumpSerial key mismatch -/

/-- Claim C10: The comparison route reads `ocrData.pumpSerial`, but every
object stored by the processing pipeline (node fallback, static default,
and — per the spec's interface contract — the Python processor) records the
serial under `pumpSerialNumber`; hence, whatever serial was extracted, the
comparison output's `pumpSerial` is the literal `"Unknown"`, even though
the stored object does carry the serial under the other key. -/
theorem pumpSerial_always_unknown (serial date modelNum : Str) (ns : List NozzleFields) :
    readPumpSerial (some (mkStoredOcrObj serial date modelNum ns)) = strOf "Unknown"
    ∧ getKey (mkStoredOcrObj serial date modelNum ns) OcrKey.pumpSerialNumber
      = some (OcrVal.str serial)
    ∧ readPumpSerial (some (pythonOcrObj serial date modelNum ns)) = strOf "Unknown" :=
  ⟨rfl, rfl, rfl⟩

end Pbms
